import Mathlib

/-!
Verification model of the pdf-rag ingestion-and-retrieval pipeline.

The definitions below are shallow embeddings of the JavaScript source:
* `server/worker.js` — `clearQdrantCollection` and the ingestion job handler;
* `server/index.js` — the Express routes `/api/upload-pdf`, `/api/upload/pdf`
  and `/api/chat` (queue initialization, validation, retrieval fallback,
  system-prompt composition and the SSE streaming loop).

External collaborators (Qdrant, the OpenAI client, S3, BullMQ) are modelled
as explicit state or as outcome parameters injected into the handlers.
-/

namespace PdfRag

/-- A langchain document chunk: extracted text plus its source metadata
(the worker's `PDFLoader` tags every chunk with the loaded file's path). -/
structure Doc where
  pageContent : String
  source : String
deriving DecidableEq, Repr

/-- A record stored in the Qdrant collection: an index-assigned id and the
originating chunk as payload. -/
structure Point where
  id : Nat
  payload : Doc
deriving DecidableEq, Repr

/-- The state of the single Qdrant collection `langchainjs-testing`:
whether the collection exists, its points, and a counter supplying fresh ids. -/
structure QdrantState where
  existsFlag : Bool
  points : List Point
  nextId : Nat
deriving DecidableEq, Repr

/-- One page of the Qdrant scroll enumeration, as requested by
`clearQdrantCollection`: `body = \x7b limit: 100, ... \x7d`, cursor advanced via
`next_page_offset` until it is null.  `scrollPages ids` is the sequence of
pages the loop receives. -/
def scrollPages : List Nat → List (List Nat)
  | [] => []
  | x :: xs => ((x :: xs).take 100) :: scrollPages ((x :: xs).drop 100)
termination_by ids => ids.length
decreasing_by
  simp only [List.length_drop, List.length_cons]
  omega

/-- All ids accumulated by the scroll loop (`allIds = allIds.concat(ids)`
across pages). -/
def scrollAllIds (ids : List Nat) : List Nat :=
  (scrollPages ids).flatten

/-- `worker.js::clearQdrantCollection`, modelled on a collection state.
Returns the list of delete calls issued (each with its id set) and the
state afterwards.  When the collection does not exist, the scroll request
fails with 404, the thrown message contains `404`, and the catch block
swallows it (`skip clear`): success with no delete call. -/
def clearQdrantCollection (st : QdrantState) :
    Except String (List (List Nat) × QdrantState) :=
  if st.existsFlag then
    let allIds := scrollAllIds (st.points.map (·.id))
    if allIds.isEmpty then
      -- `if (allIds.length === 0) ... return;` — already empty, no delete call
      .ok ([], st)
    else
      .ok ([allIds],
        ⟨true, st.points.filter (fun p => !(allIds.contains p.id)), st.nextId⟩)
  else
    .ok ([], st)

/-- `worker.js` job handler actions, in the order they are performed. -/
inductive WorkerAction where
  | loaded (numDocs : Nat)
  | clearedDelete (ids : List Nat)
  | inserted (docs : List Doc)
deriving DecidableEq, Repr

/-- `QdrantVectorStore.addDocuments`: append the chunks as fresh records. -/
def addDocuments (st : QdrantState) (docs : List Doc) : QdrantState :=
  ⟨true,
   st.points ++ docs.enum.map (fun pr => ⟨st.nextId + pr.1, pr.2⟩),
   st.nextId + docs.length⟩

/-- The `worker.js` job handler, with the loader outcome injected
(`loader.load()` either yields the chunks of the file at `data.path` or
throws).  Returns the job outcome, the collection state afterwards, and the
trace of actions in execution order: load first, then
`clearQdrantCollection`, then `addDocuments`. -/
def runJob (loadResult : Except String (List Doc)) (st : QdrantState) :
    Except String Unit × QdrantState × List WorkerAction :=
  match loadResult with
  | .error e => (.error e, st, [])
  | .ok docs =>
    match clearQdrantCollection st with
    | .error e => (.error e, st, [WorkerAction.loaded docs.length])
    | .ok (deletes, st1) =>
      (.ok (),
       addDocuments st1 docs,
       WorkerAction.loaded docs.length ::
         (deletes.map WorkerAction.clearedDelete ++ [WorkerAction.inserted docs]))

/-- The vector index's similarity search (external collaborator): the points
ranked best-first by a similarity score against the query embedding, truncated
to `k`.  The score is abstract — every result is a stored point. -/
def search (score : Point → Nat) (k : Nat) (st : QdrantState) : List Point :=
  (st.points.mergeSort (fun a b => score b ≤ score a)).take k

/-! ### Substring machinery (JS `String.prototype.includes`) -/

/-- `bs` begins `as`, on character lists. -/
def listStartsWith : List Char → List Char → Bool
  | _, [] => true
  | [], _ :: _ => false
  | a :: as, b :: bs => a == b && listStartsWith as bs

/-- `sub` occurs contiguously inside `s`, on character lists. -/
def listHasSeg : List Char → List Char → Bool
  | [], sub => sub.isEmpty
  | a :: as, sub => listStartsWith (a :: as) sub || listHasSeg as sub

/-- JS `s.includes(sub)`. -/
def strIncludes (s sub : String) : Bool :=
  listHasSeg s.data sub.data

/-- `sub` occurs contiguously inside `s`, as a proposition on strings. -/
def ContainsSeg (s sub : String) : Prop :=
  ∃ a b : String, s = a ++ sub ++ b

/-! ### The `/api/chat` route (`server/index.js`) -/

/-- One server-sent event written by the chat route. -/
inductive SseEvent where
  | metadata (docs : List Doc) (qdrantStatus : String)
  | content (text : String)
  | done
  | error (status : Nat) (errorLabel : String)
deriving DecidableEq, Repr

/-- Outcome of the OpenAI streaming call: either the full list of stream
fragments followed by clean completion, or some fragments followed by a
thrown error (the `openaiError` catch).  Each fragment is
`chunk.choices[0]?.delta?.content`, possibly absent. -/
inductive ModelOutcome where
  | ok (frags : List (Option String))
  | failed (frags : List (Option String)) (status : Option Nat) (message : String)
deriving DecidableEq, Repr

/-- The `openaiError` classification chain: always produces exactly one
terminal `error` event.  `status` is `openaiError?.status ||
openaiError?.response?.status || 500`; `message` is the first truthy of the
message fields, defaulting to `Unknown OpenAI error`. -/
def classifyOpenAIError (status : Option Nat) (message : String) : SseEvent :=
  let effStatus := status.getD 500
  let msg := if message = "" then "Unknown OpenAI error" else message
  if effStatus == 401 || strIncludes msg "401" || strIncludes msg "Incorrect API key" ||
      strIncludes msg "Invalid API key" || strIncludes msg "invalid_api_key" then
    SseEvent.error 401 "Invalid OpenAI API key"
  else if effStatus == 429 || strIncludes msg "429" || strIncludes msg "rate limit" ||
      strIncludes msg "Rate limit" then
    SseEvent.error 429 "OpenAI API rate limit exceeded"
  else if effStatus == 403 || strIncludes msg "quota" ||
      strIncludes msg "insufficient_quota" then
    SseEvent.error 403 "OpenAI API quota exceeded"
  else if effStatus == 404 || strIncludes msg "model" || strIncludes msg "not found" then
    SseEvent.error 404 "OpenAI model not available"
  else if strIncludes msg "timeout" || strIncludes msg "ETIMEDOUT" ||
      strIncludes msg "ECONNREFUSED" then
    SseEvent.error 503 "OpenAI API connection failed"
  else
    SseEvent.error (if effStatus < 600 then effStatus else 500) "OpenAI API error"

/-- The streaming loop body: `const content = chunk.choices[0]?.delta?.content
|| ''; if (content) res.write(content event)` — an absent or empty fragment
produces no event. -/
def fragEvent (frag : Option String) : Option SseEvent :=
  let c := frag.getD ""
  if c = "" then none else some (SseEvent.content c)

/-- JSON string escaping as performed by `JSON.stringify` on each string. -/
def jsonEscapeChar (c : Char) : String :=
  if c = '"' then "\\\""
  else if c = '\\' then "\\\\"
  else if c = '\n' then "\\n"
  else if c = '\r' then "\\r"
  else if c = '\t' then "\\t"
  else if c = Char.ofNat 8 then "\\b"
  else if c = Char.ofNat 12 then "\\f"
  else if c.toNat < 32 then
    "\\u00" ++
      String.singleton (Nat.digitChar (c.toNat / 16)) ++
      String.singleton (Nat.digitChar (c.toNat % 16))
  else String.singleton c

def jsonEscape (s : String) : String :=
  String.join (s.data.map jsonEscapeChar)

/-- `Array.prototype.join`-style separator interleaving. -/
def joinSep (sep : String) : List String → String
  | [] => ""
  | [x] => x
  | x :: y :: xs => x ++ sep ++ joinSep sep (y :: xs)

/-- `JSON.stringify` of one retrieved langchain `Document` (its metadata
abbreviated to the `source` field carried by `Doc`). -/
def docJson (d : Doc) : String :=
  "\x7b\"pageContent\":\"" ++ jsonEscape d.pageContent ++
    "\",\"metadata\":\x7b\"source\":\"" ++ jsonEscape d.source ++ "\"\x7d\x7d"

/-- `JSON.stringify(result)` for the retrieved chunk array. -/
def jsonStringifyDocs (docs : List Doc) : String :=
  "[" ++ joinSep "," (docs.map docJson) ++ "]"

/-- The instruction header of the context-bearing system prompt (template
literal up to the interpolation point). -/
def contextPromptHeader : String :=
  "You are a helpful AI Assistant who answers the user query based on the available context from PDF File.\n  Context:\n  "

/-- The generic no-context instruction. -/
def genericPrompt : String :=
  "You are a helpful AI Assistant. Answer the user\x27s query."

/-- `SYSTEM_PROMPT` from `server/index.js`: context-bearing when chunks were
retrieved, generic otherwise. -/
def SYSTEM_PROMPT (result : List Doc) : String :=
  if result.length > 0 then contextPromptHeader ++ jsonStringifyDocs result
  else genericPrompt

/-- Response of `GET /api/chat`: either a JSON error reply sent before any
stream is opened, or the opened event stream with its full event list. -/
inductive ChatResponse where
  | httpError (status : Nat)
  | stream (events : List SseEvent)
deriving DecidableEq, Repr

/-- `let result = ...`: the retrieved chunks, `[]` when the Qdrant step threw
(`// Continue without vector store results`). -/
def retrievalDocs : Except String (List Doc) → List Doc
  | .ok docs => docs
  | .error _ => []

/-- `qdrantStatus` as sent in the metadata event. -/
def retrievalStatusLabel : Except String (List Doc) → String
  | .ok _ => "success"
  | .error _ => "failed"

/-- Events written after the metadata event: the content loop followed by
`done`, or — when the OpenAI call or its iteration throws — the content
events emitted so far followed by the classified `error` event, after which
`res.end()` closes the channel. -/
def streamTail : ModelOutcome → List SseEvent
  | ModelOutcome.ok frags => frags.filterMap fragEvent ++ [SseEvent.done]
  | ModelOutcome.failed frags st msg =>
      frags.filterMap fragEvent ++ [classifyOpenAIError st msg]

/-- The `/api/chat` handler.  `message` is the `message` query parameter
(`none` when absent); `retrieval` is the outcome of the Qdrant similarity
search; `model` the outcome of the OpenAI streaming call. -/
def chatRoute (message : Option String) (apiKey : String)
    (retrieval : Except String (List Doc)) (model : ModelOutcome) : ChatResponse :=
  match message with
  | none => ChatResponse.httpError 400
  | some userQuery =>
    if userQuery = "" then ChatResponse.httpError 400
    else if apiKey = "" then ChatResponse.httpError 500
    else
      ChatResponse.stream
        (SseEvent.metadata (retrievalDocs retrieval) (retrievalStatusLabel retrieval) ::
          streamTail model)

/-! ### Upload routes and queue initialization (`server/index.js`) -/

structure UploadedFile where
  originalname : String
  mimetype : String
deriving DecidableEq, Repr

/-- Result of an upload route: HTTP status plus the ingestion-job payloads
that actually reached the queue. -/
structure RouteResult where
  status : Nat
  enqueued : List String
deriving DecidableEq, Repr

/-- JS `String.prototype.toLowerCase`, character by character. -/
def strToLower (s : String) : String :=
  String.mk (s.data.map Char.toLower)

/-- `POST /api/upload-pdf`: mimetype-checked S3 upload.  This route never
enqueues an ingestion job. -/
def uploadPdfRoute (file : Option UploadedFile) (s3Configured : Bool)
    (s3Upload : Except String String) : RouteResult :=
  match file with
  | none => ⟨400, []⟩
  | some f =>
    if strToLower f.mimetype ≠ "application/pdf" then ⟨400, []⟩
    else if s3Configured = false then ⟨503, []⟩
    else
      match s3Upload with
      | .error _ => ⟨500, []⟩
      | .ok _ => ⟨200, []⟩

/-- Queue handle: the BullMQ queue, or the mock object substituted when the
constructor throws at startup. -/
inductive QueueHandle where
  | real
  | mock
deriving DecidableEq, Repr

/-- Queue initialization: `try \x7b queue = new Queue(...) \x7d catch \x7b queue = mock \x7d` —
never throws out of startup. -/
def initQueue (constructorThrows : Bool) : QueueHandle :=
  if constructorThrows then QueueHandle.mock else QueueHandle.real

/-- `queue.add`: the mock logs a warning and succeeds without enqueueing;
the real queue enqueues the payload, or throws if the broker call fails. -/
def queueAdd (q : QueueHandle) (brokerOk : Bool) (payload : String) :
    Except String (List String) :=
  match q with
  | QueueHandle.mock => .ok []
  | QueueHandle.real =>
      if brokerOk then .ok [payload] else .error "enqueue failed"

/-- `POST /api/upload/pdf`: the enqueueing upload route.  No mimetype check;
an enqueue error is logged (`Queue error (continuing anyway)`) and the
response is still success. -/
def uploadPdfEnqueueRoute (file : Option UploadedFile) (s3Configured : Bool)
    (s3Upload : Except String String) (q : QueueHandle) (brokerOk : Bool) :
    RouteResult :=
  match file with
  | none => ⟨400, []⟩
  | some f =>
    let afterStore : RouteResult :=
      match queueAdd q brokerOk f.originalname with
      | .ok enq => ⟨200, enq⟩
      | .error _ => ⟨200, []⟩
    if s3Configured then
      match s3Upload with
      | .error _ => ⟨500, []⟩
      | .ok _ => afterStore
    else afterStore

/-- The content strings that survive the streaming-loop filter: one per
fragment whose text is present and non-empty. -/
def fragTexts (frags : List (Option String)) : List String :=
  frags.filterMap (fun f => if f.getD "" = "" then none else some (f.getD ""))

/-- Recognizer for metadata events. -/
def isMetadataEv : SseEvent → Bool
  | SseEvent.metadata _ _ => true
  | _ => false

/-- Recognizer for content events. -/
def isContentEv : SseEvent → Bool
  | SseEvent.content _ => true
  | _ => false

/-- Recognizer for terminal events: `done` or `error`. -/
def isTerminalEv : SseEvent → Bool
  | SseEvent.done => true
  | SseEvent.error _ _ => true
  | _ => false

/-! ### Lemmas -/

theorem scrollPages_flatten : ∀ ids : List Nat, (scrollPages ids).flatten = ids
  | [] => by simp [scrollPages]
  | x :: xs => by
    rw [scrollPages]
    simp only [List.flatten_cons]
    rw [scrollPages_flatten ((x :: xs).drop 100), List.take_append_drop]
termination_by ids => ids.length
decreasing_by
  simp only [List.length_drop, List.length_cons]
  omega

theorem scrollAllIds_eq (ids : List Nat) : scrollAllIds ids = ids :=
  scrollPages_flatten ids

/-- Every scroll page respects the requested `limit: 100`. -/
theorem scrollPages_le_100 : ∀ ids : List Nat, ∀ pg ∈ scrollPages ids, pg.length ≤ 100
  | [] => by simp [scrollPages]
  | x :: xs => by
    rw [scrollPages]
    intro pg hpg
    rcases List.mem_cons.mp hpg with h | h
    · subst h
      exact List.length_take_le 100 (x :: xs)
    · exact scrollPages_le_100 ((x :: xs).drop 100) pg h
termination_by ids => ids.length
decreasing_by
  simp only [List.length_drop, List.length_cons]
  omega

/-- Number of scroll fetches: one page per started block of 100 ids. -/
theorem scrollPages_length : ∀ ids : List Nat,
    (scrollPages ids).length = (ids.length + 99) / 100
  | [] => by simp [scrollPages]
  | x :: xs => by
    rw [scrollPages]
    simp only [List.length_cons, List.length_drop]
    rw [scrollPages_length ((x :: xs).drop 100)]
    simp only [List.length_drop, List.length_cons]
    omega
termination_by ids => ids.length
decreasing_by
  simp only [List.length_drop, List.length_cons]
  omega

/-- On an existing, non-empty collection, `clearQdrantCollection` issues one
delete call carrying every id and leaves the collection empty. -/
theorem clearQdrantCollection_nonempty (st : QdrantState)
    (hex : st.existsFlag = true) (hne : st.points ≠ []) :
    clearQdrantCollection st =
      .ok ([st.points.map (·.id)], ⟨true, [], st.nextId⟩) := by
  have hfilter : st.points.filter
      (fun p => !((st.points.map (·.id)).contains p.id)) = [] := by
    rw [List.filter_eq_nil_iff]
    intro p hp
    rw [Bool.not_eq_true, Bool.not_eq_false']
    simpa [List.contains] using
      List.elem_eq_true_of_mem (List.mem_map_of_mem (·.id) hp)
  have hmapne : st.points.map (·.id) ≠ [] := by
    simpa using hne
  unfold clearQdrantCollection
  rw [hex]
  simp only [if_true, scrollAllIds_eq]
  rw [if_neg (by simpa [List.isEmpty_iff] using hmapne), hfilter]

/-- Whatever the scoring, `search` only ever returns stored points. -/
theorem search_subset (score : Point → Nat) (k : Nat) (st : QdrantState)
    (p : Point) (hp : p ∈ search score k st) : p ∈ st.points := by
  have := List.take_subset k _ hp
  exact (List.mergeSort_perm st.points _).mem_iff.mp this

theorem listStartsWith_iff : ∀ (as bs : List Char),
    listStartsWith as bs = true ↔ ∃ t, as = bs ++ t
  | as, [] => by simp [listStartsWith]
  | [], b :: bs => by simp [listStartsWith]
  | a :: as, b :: bs => by
    simp only [listStartsWith, Bool.and_eq_true, beq_iff_eq,
      listStartsWith_iff as bs, List.cons_append]
    constructor
    · rintro ⟨rfl, t, rfl⟩
      exact ⟨t, rfl⟩
    · rintro ⟨t, h⟩
      cases h
      exact ⟨rfl, t, rfl⟩

theorem listHasSeg_iff : ∀ (s sub : List Char),
    listHasSeg s sub = true ↔ ∃ a b, s = a ++ (sub ++ b)
  | [], sub => by
    simp only [listHasSeg, List.isEmpty_iff]
    constructor
    · rintro rfl
      exact ⟨[], [], rfl⟩
    · rintro ⟨a, b, h⟩
      rcases List.append_eq_nil.mp h.symm with ⟨rfl, h2⟩
      exact (List.append_eq_nil.mp h2).1
  | c :: cs, sub => by
    simp only [listHasSeg, Bool.or_eq_true, listStartsWith_iff,
      listHasSeg_iff cs sub]
    constructor
    · rintro (⟨t, h⟩ | ⟨a, b, h⟩)
      · exact ⟨[], t, by simpa using h⟩
      · exact ⟨c :: a, b, by simp [h]⟩
    · rintro ⟨a, b, h⟩
      match a, h with
      | [], h => exact Or.inl ⟨b, by simpa using h⟩
      | a0 :: as, h =>
        simp only [List.cons_append, List.cons.injEq] at h
        exact Or.inr ⟨as, b, h.2⟩

theorem containsSeg_of_parts (a sub b : String) : ContainsSeg (a ++ sub ++ b) sub :=
  ⟨a, b, rfl⟩

theorem containsSeg_trans (s t u : String)
    (h1 : ContainsSeg s t) (h2 : ContainsSeg t u) : ContainsSeg s u := by
  rcases h1 with ⟨a, b, rfl⟩
  rcases h2 with ⟨c, d, rfl⟩
  exact ⟨a ++ c, d ++ b, by simp [String.append_assoc]⟩

theorem joinSep_decomp (sep : String) :
    ∀ (l : List String) (x : String), x ∈ l →
      ∃ a b : String, joinSep sep l = a ++ x ++ b
  | [], x, hx => by cases hx
  | [y], x, hx => by
    rcases List.mem_singleton.mp hx with rfl
    exact ⟨"", "", by simp [joinSep]⟩
  | y :: z :: zs, x, hx => by
    rcases List.mem_cons.mp hx with rfl | hx
    · exact ⟨"", sep ++ joinSep sep (z :: zs), by simp [joinSep, String.append_assoc]⟩
    · rcases joinSep_decomp sep (z :: zs) x hx with ⟨a, b, hab⟩
      exact ⟨y ++ sep ++ a, b, by simp [joinSep, hab, String.append_assoc]⟩

theorem docJson_contains_text (d : Doc) :
    ContainsSeg (docJson d) (jsonEscape d.pageContent) := by
  refine ⟨"\x7b\"pageContent\":\"",
    "\",\"metadata\":\x7b\"source\":\"" ++ jsonEscape d.source ++ "\"\x7d\x7d", ?_⟩
  simp [docJson, String.append_assoc]

theorem jsonStringifyDocs_contains_text (docs : List Doc) (d : Doc) (hd : d ∈ docs) :
    ContainsSeg (jsonStringifyDocs docs) (jsonEscape d.pageContent) := by
  rcases joinSep_decomp "," (docs.map docJson) (docJson d)
    (List.mem_map_of_mem docJson hd) with ⟨a, b, hab⟩
  refine containsSeg_trans _ (docJson d) _ ⟨"[" ++ a, b ++ "]", ?_⟩
    (docJson_contains_text d)
  simp [jsonStringifyDocs, hab, String.append_assoc]

theorem classifyOpenAIError_eq_error (st : Option Nat) (msg : String) :
    ∃ c l, classifyOpenAIError st msg = SseEvent.error c l := by
  simp only [classifyOpenAIError]
  split_ifs <;> exact ⟨_, _, rfl⟩

theorem filterMap_fragEvent (frags : List (Option String)) :
    frags.filterMap fragEvent = (fragTexts frags).map SseEvent.content := by
  induction frags with
  | nil => rfl
  | cons f fs ih =>
    by_cases hc : f.getD "" = "" <;>
      simp [fragTexts, List.filterMap_cons, fragEvent, hc, ih]

theorem fragTexts_mem_ne (frags : List (Option String)) :
    ∀ c ∈ fragTexts frags, c ≠ "" := by
  intro c hc
  rcases List.mem_filterMap.mp hc with ⟨f, _, hf⟩
  by_cases h : f.getD "" = ""
  · rw [if_pos h] at hf
    cases hf
  · rw [if_neg h] at hf
    cases hf
    exact h

theorem fragTexts_length (frags : List (Option String)) :
    (fragTexts frags).length = (frags.filter (fun f => f.getD "" != "")).length := by
  induction frags with
  | nil => rfl
  | cons f fs ih =>
    by_cases hc : f.getD "" = "" <;>
      simp [fragTexts, List.filterMap_cons, List.filter_cons, hc] <;>
      simpa [fragTexts] using ih

/-- Canonical form of every opened chat stream. -/
theorem chatRoute_stream_inv (m : Option String) (k : String)
    (q : Except String (List Doc)) (mo : ModelOutcome) (evs : List SseEvent)
    (h : chatRoute m k q mo = ChatResponse.stream evs) :
    ∃ cs t,
      evs = SseEvent.metadata (retrievalDocs q) (retrievalStatusLabel q) ::
        (cs.map SseEvent.content ++ [t]) ∧
      isTerminalEv t = true ∧
      isContentEv t = false ∧
      (∀ c ∈ cs, c ≠ "") ∧
      (∀ frags, mo = ModelOutcome.ok frags → cs = fragTexts frags ∧ t = SseEvent.done) := by
  cases m with
  | none => simp [chatRoute] at h
  | some s =>
    by_cases hs : s = ""
    · simp [chatRoute, hs] at h
    · by_cases hk : k = ""
      · simp [chatRoute, hs, hk] at h
      · rw [chatRoute] at h
        rw [if_neg hs, if_neg hk] at h
        cases h
        cases mo with
        | ok frags =>
          refine ⟨fragTexts frags, SseEvent.done, ?_, rfl, rfl, fragTexts_mem_ne frags, ?_⟩
          · simp [streamTail, filterMap_fragEvent]
          · intro fr hfr
            cases hfr
            exact ⟨rfl, rfl⟩
        | failed frags st msg =>
          rcases classifyOpenAIError_eq_error st msg with ⟨c, l, hcl⟩
          refine ⟨fragTexts frags, classifyOpenAIError st msg, ?_, ?_, ?_,
            fragTexts_mem_ne frags, ?_⟩
          · simp [streamTail, filterMap_fragEvent]
          · rw [hcl]; rfl
          · rw [hcl]; rfl
          · intro fr hfr
            cases hfr

theorem strIncludes_iff (s sub : String) :
    strIncludes s sub = true ↔ ContainsSeg s sub := by
  unfold strIncludes ContainsSeg
  rw [listHasSeg_iff]
  constructor
  · rintro ⟨a, b, h⟩
    refine ⟨⟨a⟩, ⟨b⟩, ?_⟩
    apply String.ext
    simpa [String.data_append] using h
  · rintro ⟨a, b, h⟩
    refine ⟨a.data, b.data, ?_⟩
    have := congrArg String.data h
    simpa [String.data_append] using this

/-! ### Claim theorems -/

/-- **C2.** For every chat query that passes validation and opens a stream,
the emitted event sequence consists of exactly one metadata event first
(carrying the retrieved chunks and the retrieval status), then zero or more
content events, then exactly one terminal event — `done` xor `error` — and no
event follows the terminal event. -/
theorem chat_stream_contract (m : Option String) (k : String)
    (q : Except String (List Doc)) (mo : ModelOutcome) (evs : List SseEvent)
    (h : chatRoute m k q mo = ChatResponse.stream evs) :
    ∃ (cs : List String) (t : SseEvent),
      evs = SseEvent.metadata (retrievalDocs q) (retrievalStatusLabel q) ::
        (cs.map SseEvent.content ++ [t]) ∧
      isTerminalEv t = true ∧
      evs.countP isMetadataEv = 1 ∧
      evs.countP isTerminalEv = 1 ∧
      evs.getLast? = some t := by
  rcases chatRoute_stream_inv m k q mo evs h with ⟨cs, t, hevs, hterm, hcont, _, _⟩
  have hmeta : isMetadataEv t = false := by
    cases t <;> simp_all [isMetadataEv, isContentEv, isTerminalEv]
  have hcm : (isMetadataEv ∘ SseEvent.content) = fun _ : String => false := by
    funext x
    rfl
  have hct : (isTerminalEv ∘ SseEvent.content) = fun _ : String => false := by
    funext x
    rfl
  have h1 : isMetadataEv
      (SseEvent.metadata (retrievalDocs q) (retrievalStatusLabel q)) = true := rfl
  have h2 : isTerminalEv
      (SseEvent.metadata (retrievalDocs q) (retrievalStatusLabel q)) = false := rfl
  refine ⟨cs, t, hevs, hterm, ?_, ?_, ?_⟩
  · subst hevs
    simp [List.countP_cons, List.countP_append, List.countP_map, hcm, h1, hmeta,
      List.countP_false]
  · subst hevs
    simp [List.countP_cons, List.countP_append, List.countP_map, hct, h2, hterm,
      List.countP_false]
  · subst hevs
    rw [← List.cons_append, List.getLast?_concat]

/-- Witness for C2 at a concrete request. -/
theorem chat_stream_contract_witness :
    ∃ (cs : List String) (t : SseEvent),
      ([SseEvent.metadata [⟨"text", "f.pdf"⟩] "success",
        SseEvent.content "Hel", SseEvent.content "lo", SseEvent.done] :
          List SseEvent) =
        SseEvent.metadata (retrievalDocs (Except.ok [⟨"text", "f.pdf"⟩]))
            (retrievalStatusLabel (Except.ok [⟨"text", "f.pdf"⟩])) ::
          (cs.map SseEvent.content ++ [t]) ∧
      isTerminalEv t = true ∧
      ([SseEvent.metadata [⟨"text", "f.pdf"⟩] "success",
        SseEvent.content "Hel", SseEvent.content "lo", SseEvent.done] :
          List SseEvent).countP isMetadataEv = 1 ∧
      ([SseEvent.metadata [⟨"text", "f.pdf"⟩] "success",
        SseEvent.content "Hel", SseEvent.content "lo", SseEvent.done] :
          List SseEvent).countP isTerminalEv = 1 ∧
      ([SseEvent.metadata [⟨"text", "f.pdf"⟩] "success",
        SseEvent.content "Hel", SseEvent.content "lo", SseEvent.done] :
          List SseEvent).getLast? = some t :=
  chat_stream_contract (some "hi") "sk-test" (Except.ok [⟨"text", "f.pdf"⟩])
    (ModelOutcome.ok [some "Hel", none, some "", some "lo"]) _ (by decide)

/-- **C5.** For every valid chat query during which the Qdrant similarity
search fails, the handler proceeds with zero retrieved chunks: it still opens
a complete, well-formed stream whose metadata event carries the retrieval
status `failed` and an empty document list. -/
theorem chat_degrades_on_retrieval_failure (m k e : String) (mo : ModelOutcome)
    (hm : m ≠ "") (hk : k ≠ "") :
    ∃ (cs : List String) (t : SseEvent),
      chatRoute (some m) k (Except.error e) mo =
        ChatResponse.stream (SseEvent.metadata [] "failed" ::
          (cs.map SseEvent.content ++ [t])) ∧
      isTerminalEv t = true := by
  have h : chatRoute (some m) k (Except.error e) mo =
      ChatResponse.stream
        (SseEvent.metadata (retrievalDocs (Except.error e))
          (retrievalStatusLabel (Except.error e)) :: streamTail mo) := by
    rw [chatRoute]
    rw [if_neg hm, if_neg hk]
  rcases chatRoute_stream_inv _ _ _ _ _ h with ⟨cs, t, hevs, hterm, _, _, _⟩
  exact ⟨cs, t, h.trans (congrArg ChatResponse.stream hevs), hterm⟩

/-- Witness for C5 at a concrete request with the index unreachable. -/
theorem chat_degrades_on_retrieval_failure_witness :
    ("hello" ≠ "") ∧ ("sk-test" ≠ "") ∧
    ∃ (cs : List String) (t : SseEvent),
      chatRoute (some "hello") "sk-test" (Except.error "ECONNREFUSED")
          (ModelOutcome.ok [some "Hi"]) =
        ChatResponse.stream (SseEvent.metadata [] "failed" ::
          (cs.map SseEvent.content ++ [t])) ∧
      isTerminalEv t = true :=
  ⟨by decide, by decide,
    chat_degrades_on_retrieval_failure "hello" "sk-test" "ECONNREFUSED"
      (ModelOutcome.ok [some "Hi"]) (by decide) (by decide)⟩

/-- **C10.** Every content event on the chat stream carries a non-empty
string; model fragments whose text is empty or absent are skipped and produce
no content event: the number of content events equals the number of fragments
with non-empty text. -/
theorem chat_content_events_nonempty (m : Option String) (k : String)
    (q : Except String (List Doc)) (mo : ModelOutcome) (evs : List SseEvent)
    (h : chatRoute m k q mo = ChatResponse.stream evs) :
    (∀ c, SseEvent.content c ∈ evs → c ≠ "") ∧
    (∀ frags, mo = ModelOutcome.ok frags →
      evs.countP isContentEv =
        (frags.filter (fun f => f.getD "" != "")).length) := by
  rcases chatRoute_stream_inv m k q mo evs h with ⟨cs, t, hevs, hterm, hcont, hne, hok⟩
  constructor
  · intro c hc
    subst hevs
    rcases List.mem_cons.mp hc with hmeta | hc
    · cases hmeta
    · rcases List.mem_append.mp hc with hmap | hlast
      · rcases List.mem_map.mp hmap with ⟨c0, hc0, hceq⟩
        cases hceq
        exact hne _ hc0
      · rcases List.mem_singleton.mp hlast with ht
        rw [← ht] at hcont
        simp [isContentEv] at hcont
  · intro frags hfr
    rcases hok frags hfr with ⟨rfl, rfl⟩
    subst hevs
    have hcomp : (isContentEv ∘ SseEvent.content) = fun _ : String => true := by
      funext x
      rfl
    simp only [List.countP_cons, List.countP_append, List.countP_map, hcomp,
      List.countP_true, isContentEv, isMetadataEv]
    simpa using fragTexts_length frags

/-- Witness for C10 at a concrete stream with empty and absent fragments. -/
theorem chat_content_events_nonempty_witness :
    (∀ c, SseEvent.content c ∈
        ([SseEvent.metadata [] "success", SseEvent.content "A", SseEvent.done] :
          List SseEvent) → c ≠ "") ∧
    (∀ frags, ModelOutcome.ok [none, some "", some "A"] = ModelOutcome.ok frags →
      ([SseEvent.metadata [] "success", SseEvent.content "A", SseEvent.done] :
        List SseEvent).countP isContentEv =
        (frags.filter (fun f => f.getD "" != "")).length) :=
  chat_content_events_nonempty (some "q") "sk-test" (Except.ok [])
    (ModelOutcome.ok [none, some "", some "A"]) _ (by decide)

/-- **C3.** On a collection holding records, `clearQdrantCollection`
enumerates every record id through cursor pagination — pages of at most 100
ids, one page per started block of 100, whose concatenation is the full id
list — and then issues exactly one delete call carrying all the ids, leaving
the collection empty. -/
theorem clearCollection_paginates_and_deletes_all (st : QdrantState)
    (hex : st.existsFlag = true) (hne : st.points ≠ []) :
    scrollAllIds (st.points.map (·.id)) = st.points.map (·.id) ∧
    (∀ pg ∈ scrollPages (st.points.map (·.id)), pg.length ≤ 100) ∧
    (scrollPages (st.points.map (·.id))).length = (st.points.length + 99) / 100 ∧
    clearQdrantCollection st =
      .ok ([st.points.map (·.id)], ⟨true, [], st.nextId⟩) := by
  refine ⟨scrollAllIds_eq _, scrollPages_le_100 _, ?_,
    clearQdrantCollection_nonempty st hex hne⟩
  rw [scrollPages_length]
  simp

/-- Witness for C3 on a concrete two-page collection (101 records). -/
theorem clearCollection_paginates_and_deletes_all_witness :
    (QdrantState.mk true ((List.range 101).map
        (fun i => Point.mk i (Doc.mk "t" "s.pdf"))) 101).existsFlag = true ∧
    (QdrantState.mk true ((List.range 101).map
        (fun i => Point.mk i (Doc.mk "t" "s.pdf"))) 101).points ≠ [] ∧
    (scrollPages ((QdrantState.mk true ((List.range 101).map
        (fun i => Point.mk i (Doc.mk "t" "s.pdf"))) 101).points.map
          (·.id))).length =
      ((QdrantState.mk true ((List.range 101).map
        (fun i => Point.mk i (Doc.mk "t" "s.pdf"))) 101).points.length + 99) /
        100 :=
  ⟨rfl, by decide,
    (clearCollection_paginates_and_deletes_all _ rfl (by decide)).2.2.1⟩

/-- **C4.** `clearQdrantCollection` on an already-empty collection, or on a
collection that does not exist yet, returns successfully and issues zero
delete calls, leaving the state untouched. -/
theorem clearCollection_idempotent_on_empty_or_missing (st : QdrantState) :
    (st.existsFlag = true → st.points = [] →
      clearQdrantCollection st = .ok ([], st)) ∧
    (st.existsFlag = false →
      clearQdrantCollection st = .ok ([], st)) := by
  constructor
  · intro hex hpts
    simp [clearQdrantCollection, hex, hpts, scrollAllIds, scrollPages]
  · intro hex
    simp [clearQdrantCollection, hex]

/-- Witness for C4: an existing empty collection and a missing collection. -/
theorem clearCollection_idempotent_on_empty_or_missing_witness :
    clearQdrantCollection ⟨true, [], 7⟩ = .ok ([], ⟨true, [], 7⟩) ∧
    clearQdrantCollection ⟨false, [], 0⟩ = .ok ([], ⟨false, [], 0⟩) :=
  ⟨(clearCollection_idempotent_on_empty_or_missing ⟨true, [], 7⟩).1 rfl rfl,
   (clearCollection_idempotent_on_empty_or_missing ⟨false, [], 0⟩).2 rfl⟩

/-- On any well-formed state (a non-existing collection holds no points),
clearing succeeds and leaves an empty collection with the id counter intact. -/
theorem clearQdrantCollection_result (st : QdrantState)
    (hwf : st.existsFlag = false → st.points = []) :
    ∃ deletes st1, clearQdrantCollection st = .ok (deletes, st1) ∧
      st1.points = [] ∧ st1.nextId = st.nextId := by
  cases hex : st.existsFlag with
  | false =>
    exact ⟨[], st, by simp [clearQdrantCollection, hex], hwf hex, rfl⟩
  | true =>
    by_cases hne : st.points = []
    · exact ⟨[], st,
        by simp [clearQdrantCollection, hex, hne, scrollAllIds, scrollPages],
        hne, rfl⟩
    · exact ⟨[st.points.map (·.id)], ⟨true, [], st.nextId⟩,
        clearQdrantCollection_nonempty st hex hne, rfl, rfl⟩

/-- A job whose load succeeds ends with the index holding exactly the loaded
chunks. -/
theorem runJob_ok (docs : List Doc) (st : QdrantState)
    (hwf : st.existsFlag = false → st.points = []) :
    ∃ st' acts, runJob (.ok docs) st = (.ok (), st', acts) ∧
      st'.points.map (·.payload) = docs := by
  rcases clearQdrantCollection_result st hwf with ⟨deletes, st1, hclear, hpts, _⟩
  refine ⟨addDocuments st1 docs,
    WorkerAction.loaded docs.length ::
      (deletes.map WorkerAction.clearedDelete ++ [WorkerAction.inserted docs]),
    ?_, ?_⟩
  · simp [runJob, hclear]
  · simp only [addDocuments, hpts, List.nil_append, List.map_map]
    have hcomp : ((fun p : Point => p.payload) ∘
        (fun pr : Nat × Doc => Point.mk (st1.nextId + pr.1) pr.2)) = Prod.snd := by
      funext pr
      rfl
    rw [hcomp, List.enum_map_snd]

/-- **C1.** After a successfully completed ingestion run, the index contains
exactly the records inserted by that run — all tagged with the ingested
document — so any similarity search afterwards returns only that document's
chunks, never a mix with an earlier document. -/
theorem ingestion_run_replaces_index (docs : List Doc) (path : String)
    (st st' : QdrantState) (acts : List WorkerAction)
    (hwf : st.existsFlag = false → st.points = [])
    (hdocs : ∀ d ∈ docs, d.source = path)
    (hrun : runJob (.ok docs) st = (.ok (), st', acts)) :
    st'.points.map (·.payload) = docs ∧
    (∀ p ∈ st'.points, p.payload.source = path) ∧
    (∀ score k p, p ∈ search score k st' → p.payload.source = path) := by
  rcases runJob_ok docs st hwf with ⟨st2, acts2, hrun2, hpayload⟩
  have hst : st' = st2 := congrArg (fun x => x.2.1) (hrun.symm.trans hrun2)
  subst hst
  have hmem : ∀ p ∈ st'.points, p.payload.source = path := by
    intro p hp
    have hm := List.mem_map_of_mem (fun q : Point => q.payload) hp
    rw [hpayload] at hm
    exact hdocs _ hm
  exact ⟨hpayload, hmem, fun score k p hp =>
    hmem p (search_subset score k st' p hp)⟩

/-- Witness for C1: ingesting `doc.pdf` into an index previously holding a
record of `other.pdf`. -/
theorem ingestion_run_replaces_index_witness :
    ((QdrantState.mk true [Point.mk 0 (Doc.mk "old" "other.pdf")] 1).existsFlag
        = false →
      (QdrantState.mk true [Point.mk 0 (Doc.mk "old" "other.pdf")] 1).points
        = []) ∧
    (∀ d ∈ [Doc.mk "new" "doc.pdf"], d.source = "doc.pdf") ∧
    ((QdrantState.mk true [Point.mk 1 (Doc.mk "new" "doc.pdf")] 2).points.map
        (·.payload) = [Doc.mk "new" "doc.pdf"] ∧
      (∀ p ∈ (QdrantState.mk true [Point.mk 1 (Doc.mk "new" "doc.pdf")] 2).points,
        p.payload.source = "doc.pdf") ∧
      (∀ score k p,
        p ∈ search score k (QdrantState.mk true [Point.mk 1 (Doc.mk "new" "doc.pdf")] 2) →
        p.payload.source = "doc.pdf")) :=
  ⟨by decide, by decide,
    ingestion_run_replaces_index [Doc.mk "new" "doc.pdf"] "doc.pdf"
      (QdrantState.mk true [Point.mk 0 (Doc.mk "old" "other.pdf")] 1)
      (QdrantState.mk true [Point.mk 1 (Doc.mk "new" "doc.pdf")] 2)
      [WorkerAction.loaded 1, WorkerAction.clearedDelete [0],
        WorkerAction.inserted [Doc.mk "new" "doc.pdf"]]
      (by decide) (by decide)
      (by simp [runJob, clearQdrantCollection, scrollAllIds, scrollPages,
        addDocuments, List.enum])⟩

/-- **C7.** Within a single ingestion job the index is cleared only after the
document loaded, and before any record is inserted: a failed load propagates
the error and leaves the index untouched with no index operation performed;
in a successful job the final state is `addDocuments` applied to the cleared
state, and in the action trace every delete call strictly precedes the
insertion. -/
theorem ingestion_clear_before_insert (st : QdrantState) :
    (∀ e, runJob (.error e) st = (.error e, st, [])) ∧
    (∀ docs st' acts, runJob (.ok docs) st = (.ok (), st', acts) →
      ∃ deletes st1,
        clearQdrantCollection st = .ok (deletes, st1) ∧
        st' = addDocuments st1 docs ∧
        acts = WorkerAction.loaded docs.length ::
          (deletes.map WorkerAction.clearedDelete ++
            [WorkerAction.inserted docs]) ∧
        (∀ (i : Nat) (ids : List Nat),
          acts[i]? = some (WorkerAction.clearedDelete ids) →
          ∀ (j : Nat) (ds : List Doc),
            acts[j]? = some (WorkerAction.inserted ds) → i < j)) := by
  refine ⟨fun e => rfl, ?_⟩
  intro docs st' acts hrun
  cases hclear : clearQdrantCollection st with
  | error e =>
    simp [runJob, hclear] at hrun
  | ok pr =>
    obtain ⟨deletes, st1⟩ := pr
    simp only [runJob, hclear] at hrun
    have hst : st' = addDocuments st1 docs :=
      (congrArg (fun x => x.2.1) hrun).symm
    have hacts : acts = WorkerAction.loaded docs.length ::
        (deletes.map WorkerAction.clearedDelete ++
          [WorkerAction.inserted docs]) :=
      (congrArg (fun x => x.2.2) hrun).symm
    refine ⟨deletes, st1, rfl, hst, hacts, ?_⟩
    subst hacts
    intro i ids hi j ds hj
    match i, j with
    | 0, _ => simp at hi
    | _, 0 => simp at hj
    | i' + 1, j' + 1 =>
      simp only [List.getElem?_cons_succ] at hi hj
      rw [List.getElem?_append] at hi hj
      by_cases hip : i' < (deletes.map WorkerAction.clearedDelete).length
      · by_cases hjp : j' < (deletes.map WorkerAction.clearedDelete).length
        · rw [if_pos hjp, List.getElem?_map] at hj
          cases hdj : deletes[j']? with
          | none => rw [hdj] at hj; simp at hj
          | some x => rw [hdj] at hj; simp at hj
        · omega
      · rw [if_neg hip] at hi
        rcases Nat.eq_zero_or_pos
            (i' - (deletes.map WorkerAction.clearedDelete).length) with h0 | hpos
        · rw [h0] at hi
          simp at hi
        · rw [List.getElem?_eq_none
              (by simp only [List.length_singleton]; omega)] at hi
          cases hi

/-- Witness for C7: a failing load, and a successful job, on a concrete
index. -/
theorem ingestion_clear_before_insert_witness :
    runJob (.error "LoadError") (QdrantState.mk true [] 0) =
      (.error "LoadError", QdrantState.mk true [] 0, []) ∧
    (∃ deletes st1,
      clearQdrantCollection (QdrantState.mk true [] 0) = .ok (deletes, st1) ∧
      QdrantState.mk true [Point.mk 0 (Doc.mk "p1" "a.pdf")] 1 =
        addDocuments st1 [Doc.mk "p1" "a.pdf"] ∧
      ([WorkerAction.loaded 1, WorkerAction.inserted [Doc.mk "p1" "a.pdf"]] :
          List WorkerAction) =
        WorkerAction.loaded ([Doc.mk "p1" "a.pdf"].length) ::
          (deletes.map WorkerAction.clearedDelete ++
            [WorkerAction.inserted [Doc.mk "p1" "a.pdf"]]) ∧
      (∀ (i : Nat) (ids : List Nat),
        ([WorkerAction.loaded 1,
          WorkerAction.inserted [Doc.mk "p1" "a.pdf"]] :
            List WorkerAction)[i]? = some (WorkerAction.clearedDelete ids) →
        ∀ (j : Nat) (ds : List Doc),
          ([WorkerAction.loaded 1,
            WorkerAction.inserted [Doc.mk "p1" "a.pdf"]] :
              List WorkerAction)[j]? = some (WorkerAction.inserted ds) →
          i < j)) :=
  ⟨(ingestion_clear_before_insert (QdrantState.mk true [] 0)).1 "LoadError",
   (ingestion_clear_before_insert (QdrantState.mk true [] 0)).2
      [Doc.mk "p1" "a.pdf"]
      (QdrantState.mk true [Point.mk 0 (Doc.mk "p1" "a.pdf")] 1)
      [WorkerAction.loaded 1, WorkerAction.inserted [Doc.mk "p1" "a.pdf"]]
      (by simp [runJob, clearQdrantCollection, scrollAllIds, scrollPages,
        addDocuments, List.enum])⟩

/-- **C6 (amended).** A chat request with a missing or empty `message` is
rejected with 400 before any stream is opened.  An upload of a non-PDF file
to `POST /api/upload-pdf` is rejected with 400, and that route never enqueues
an ingestion job.  The enqueueing route `POST /api/upload/pdf`, however,
performs no file-type check: it accepts a non-PDF file and enqueues an
ingestion job for it. -/
theorem input_rejection (k : String) (q : Except String (List Doc))
    (mo : ModelOutcome) (f : UploadedFile) (s3c : Bool)
    (s3u : Except String String) :
    chatRoute none k q mo = ChatResponse.httpError 400 ∧
    chatRoute (some "") k q mo = ChatResponse.httpError 400 ∧
    (strToLower f.mimetype ≠ "application/pdf" →
      uploadPdfRoute (some f) s3c s3u = ⟨400, []⟩) ∧
    (uploadPdfRoute (some f) s3c s3u).enqueued = [] ∧
    (strToLower f.mimetype ≠ "application/pdf" →
      uploadPdfEnqueueRoute (some f) false s3u QueueHandle.real true =
        ⟨200, [f.originalname]⟩) := by
  refine ⟨rfl, rfl, ?_, ?_, ?_⟩
  · intro h
    simp [uploadPdfRoute, h]
  · simp only [uploadPdfRoute]
    split_ifs <;> first | rfl | (cases s3u <;> rfl)
  · intro _
    simp [uploadPdfEnqueueRoute, queueAdd]

/-- Counterexample to C6 as stated: a `text/plain` file posted to the
enqueueing upload route is not rejected — the route answers 200 and an
ingestion job is enqueued for the non-PDF file. -/
theorem input_rejection_counterexample :
    strToLower (UploadedFile.mk "notes.txt" "text/plain").mimetype ≠
      "application/pdf" ∧
    uploadPdfEnqueueRoute (some (UploadedFile.mk "notes.txt" "text/plain"))
        false (.ok "") QueueHandle.real true = ⟨200, ["notes.txt"]⟩ :=
  ⟨by decide, rfl⟩

/-- Witness for C6 at concrete requests. -/
theorem input_rejection_witness :
    chatRoute none "sk-test" (Except.ok []) (ModelOutcome.ok []) =
      ChatResponse.httpError 400 ∧
    uploadPdfRoute (some (UploadedFile.mk "notes.txt" "text/plain")) true
      (.ok "u") = ⟨400, []⟩ ∧
    uploadPdfEnqueueRoute (some (UploadedFile.mk "notes.txt" "text/plain"))
      false (.ok "u") QueueHandle.real true = ⟨200, ["notes.txt"]⟩ :=
  ⟨(input_rejection "sk-test" (Except.ok []) (ModelOutcome.ok [])
      (UploadedFile.mk "notes.txt" "text/plain") true (.ok "u")).1,
   (input_rejection "sk-test" (Except.ok []) (ModelOutcome.ok [])
      (UploadedFile.mk "notes.txt" "text/plain") true (.ok "u")).2.2.1
      (by decide),
   (input_rejection "sk-test" (Except.ok []) (ModelOutcome.ok [])
      (UploadedFile.mk "notes.txt" "text/plain") false (.ok "u")).2.2.2.2
      (by decide)⟩

/-- **C8.** Enqueueing is fire-and-forget: an enqueue error is caught and the
upload still returns success with nothing enqueued; when the queue
constructor throws at startup, the no-op mock queue is substituted instead of
crashing, its `add` succeeds without enqueueing, and uploads through it still
return success. -/
theorem enqueue_fire_and_forget (f : UploadedFile) (u : String) (b : Bool)
    (p : String) :
    uploadPdfEnqueueRoute (some f) false (.ok u) QueueHandle.real false =
      ⟨200, []⟩ ∧
    uploadPdfEnqueueRoute (some f) true (.ok u) QueueHandle.real false =
      ⟨200, []⟩ ∧
    initQueue true = QueueHandle.mock ∧
    queueAdd QueueHandle.mock b p = .ok [] ∧
    uploadPdfEnqueueRoute (some f) false (.ok u) QueueHandle.mock b =
      ⟨200, []⟩ ∧
    uploadPdfEnqueueRoute (some f) true (.ok u) QueueHandle.mock b =
      ⟨200, []⟩ :=
  ⟨rfl, rfl, rfl, rfl, rfl, rfl⟩

/-- **C9 (amended).** The system instruction is composed from the retrieval
result: with one or more retrieved chunks it is the context instruction
followed by the JSON serialization of the chunks — each chunk's text occurs
in it JSON-escaped, hence verbatim whenever the text contains no character
JSON must escape — and with zero retrieved chunks it is the generic
helpful-assistant instruction. -/
theorem system_prompt_composition (result : List Doc) :
    (result.length > 0 →
      SYSTEM_PROMPT result = contextPromptHeader ++ jsonStringifyDocs result ∧
      (∀ d ∈ result,
        ContainsSeg (SYSTEM_PROMPT result) (jsonEscape d.pageContent)) ∧
      (∀ d ∈ result, jsonEscape d.pageContent = d.pageContent →
        ContainsSeg (SYSTEM_PROMPT result) d.pageContent)) ∧
    (result.length = 0 → SYSTEM_PROMPT result = genericPrompt) := by
  constructor
  · intro hlen
    have hif : SYSTEM_PROMPT result =
        contextPromptHeader ++ jsonStringifyDocs result := by
      simp [SYSTEM_PROMPT, hlen]
    have hseg : ∀ d ∈ result,
        ContainsSeg (SYSTEM_PROMPT result) (jsonEscape d.pageContent) := by
      intro d hd
      rcases jsonStringifyDocs_contains_text result d hd with ⟨a, b, hab⟩
      exact ⟨contextPromptHeader ++ a, b,
        by rw [hif, hab]; simp [String.append_assoc]⟩
    exact ⟨hif, hseg, fun d hd he => he ▸ hseg d hd⟩
  · intro hlen
    simp [SYSTEM_PROMPT, hlen]

/-- Counterexample to C9 as stated: for a retrieved chunk whose text is
`a"b`, the composed instruction contains only the JSON-escaped form of the
text, not the text verbatim. -/
theorem system_prompt_not_verbatim :
    ([Doc.mk "a\"b" "doc.pdf"].length > 0) ∧
    ¬ ContainsSeg (SYSTEM_PROMPT [Doc.mk "a\"b" "doc.pdf"])
        (Doc.mk "a\"b" "doc.pdf").pageContent := by
  refine ⟨by decide, ?_⟩
  have hni : ¬ (strIncludes (SYSTEM_PROMPT [Doc.mk "a\"b" "doc.pdf"])
      (Doc.mk "a\"b" "doc.pdf").pageContent = true) := by decide
  exact fun hcs => hni ((strIncludes_iff _ _).mpr hcs)

/-- Witness for C9 on a one-chunk retrieval and on the empty retrieval. -/
theorem system_prompt_composition_witness :
    ([Doc.mk "hello" "doc.pdf"].length > 0) ∧
    (SYSTEM_PROMPT [Doc.mk "hello" "doc.pdf"] =
      contextPromptHeader ++ jsonStringifyDocs [Doc.mk "hello" "doc.pdf"] ∧
      (∀ d ∈ [Doc.mk "hello" "doc.pdf"],
        ContainsSeg (SYSTEM_PROMPT [Doc.mk "hello" "doc.pdf"])
          (jsonEscape d.pageContent)) ∧
      (∀ d ∈ [Doc.mk "hello" "doc.pdf"],
        jsonEscape d.pageContent = d.pageContent →
        ContainsSeg (SYSTEM_PROMPT [Doc.mk "hello" "doc.pdf"])
          d.pageContent)) ∧
    SYSTEM_PROMPT [] = genericPrompt :=
  ⟨by decide, (system_prompt_composition [Doc.mk "hello" "doc.pdf"]).1 (by decide),
   (system_prompt_composition []).2 rfl⟩

end PdfRag
